import Mathlib

/-!
# bind9-ctl reconciliation core — shallow embedding

This file embeds the core of the `bind9-ctl` repository in Lean 4 and
proves properties of the embedded definitions. The embedding covers:

* `src/bind9_ctl/models.py` — `Record`, `ZoneState`, `ZoneDiff`, `SOAConfig`;
* `src/bind9_ctl/diffing.py` — `_build_value_map`, `diff_zones`;
* `src/bind9_ctl/controller.py` — `_suggest_serial`, `_parse_soa_record`,
  `_build_soa_config`, `_filter_records`, `_matches_pattern`, the effect
  sequence of `ZoneController.apply` and `_apply_dynamic_updates`.

Conventions of the embedding:

* Python `str` is `String`; Python `int` is `Int` (arbitrary precision in
  both languages, so no wrap-around modelling is needed).
* Ambient inputs of the code (the clock, the operator's answer at the
  confirmation prompt, exit codes of external processes) are passed as
  explicit parameters.
* Functions that can raise in Python return `Except`/`Option`.
* Side-effecting code (`ZoneController.apply`) is embedded as a pure
  function computing the list of external effects it performs, in order,
  together with the error it terminates with, if any.
-/

namespace Bind9Ctl

/-! ## String helpers mirroring the Python primitives used by the source

The Lean core `String` functions (`String.trim`, `String.toLower`, …) are
implemented with iterators over byte positions and do not reduce inside the
kernel, so the Python string primitives are implemented here directly over
the character list of the string.  Each helper names the Python primitive it
embeds. -/

/-- Python `str.lower()` (the source only ever lower-cases ASCII DNS data). -/
def pyLower (s : String) : String :=
  ⟨s.data.map Char.toLower⟩

/-- Python `str.upper()`. -/
def pyUpper (s : String) : String :=
  ⟨s.data.map Char.toUpper⟩

/-- Python `str.strip()` with no argument: drop leading and trailing
whitespace. -/
def pyStrip (s : String) : String :=
  ⟨((s.data.dropWhile Char.isWhitespace).reverse.dropWhile Char.isWhitespace).reverse⟩

/-- Python `str.endswith(suffix)`. -/
def pyEndsWith (s suffix : String) : Bool :=
  suffix.data.isSuffixOf s.data

/-- Python slicing `s[:-n]` for `1 ≤ n ≤ len(s)` (drop the last `n`
characters); also correct for `n > len(s)` where Python yields `""`. -/
def pyDropRight (s : String) (n : Nat) : String :=
  ⟨s.data.take (s.data.length - n)⟩

/-- Python `len(s)` (code points). -/
def pyLen (s : String) : Nat :=
  s.data.length

/-- Python `a + b` on strings. -/
def pyConcat (a b : String) : String :=
  ⟨a.data ++ b.data⟩

/-- Tokeniser for Python `str.split()`: gather maximal runs of
non-whitespace characters; `cur` is the reversed pending token. -/
def splitWsChars (cur : List Char) : List Char → List (List Char)
  | [] => if cur = [] then [] else [cur.reverse]
  | c :: rest =>
    if c.isWhitespace then
      if cur = [] then splitWsChars [] rest
      else cur.reverse :: splitWsChars [] rest
    else splitWsChars (c :: cur) rest

/-- Python `str.split()` with no separator: split on runs of whitespace and
drop empty tokens. -/
def pySplit (s : String) : List String :=
  (splitWsChars [] s.data).map (fun l => ⟨l⟩)

/-- Python `" ".join(parts)`. -/
def joinSpace : List String → String
  | [] => ""
  | [x] => x
  | x :: rest => pyConcat x (pyConcat " " (joinSpace rest))

/-- Python `a < b` on strings: lexicographic comparison of the code-point
sequences. -/
def charsLt : List Char → List Char → Bool
  | [], [] => false
  | [], _ :: _ => true
  | _ :: _, [] => false
  | a :: as, b :: bs => decide (a < b) || (decide (a = b) && charsLt as bs)

/-- Python `a < b` on strings. -/
def pyStrLt (a b : String) : Bool :=
  charsLt a.data b.data

/-- `models._ensure_absolute`: return a fully qualified name with a trailing
dot (`""` and `"@"` map to the root `"."`). -/
def ensureAbsolute (name : String) : String :=
  let stripped := pyStrip name
  if stripped = "" then "."
  else if stripped = "@" then "."
  else if pyEndsWith stripped "." then stripped
  else pyConcat stripped "."

/-- Python `int(token)` on a whitespace-free token: optional sign followed by
a non-empty run of decimal digits. Returns `none` where Python raises
`ValueError`. -/
def pyIntDigits (cs : List Char) : Option Nat :=
  if cs = [] then none
  else if cs.all (fun c => c.isDigit) then
    some (cs.foldl (fun a c => a * 10 + (c.toNat - '0'.toNat)) 0)
  else none

/-- Python `int(token)` for a token produced by `str.split()`. -/
def pyInt (s : String) : Option Int :=
  match s.data with
  | '+' :: rest => (pyIntDigits rest).map Int.ofNat
  | '-' :: rest => (pyIntDigits rest).map (fun n => -(Int.ofNat n))
  | rest => (pyIntDigits rest).map Int.ofNat

/-! ## `models.Record` -/

/-- `models.Record`: canonical representation of a DNS resource record. -/
structure Record where
  name : String
  type : String
  ttl : Int
  value : String
  priority : Option Int := none
deriving DecidableEq, Repr

/-- `Record.canonical_name`: the canonical fully qualified owner name. -/
def Record.canonical_name (r : Record) : String :=
  pyLower (ensureAbsolute r.name)

/-- `Record.canonical_type`: the canonical RR type. -/
def Record.canonical_type (r : Record) : String :=
  pyUpper r.type

/-- Replace the last element of a token list by its absolute lower-cased
form (`parts[-1] = _ensure_absolute(parts[-1]).lower()`). -/
def setLastAbsolute : List String → List String
  | [] => []
  | [x] => [pyLower (ensureAbsolute x)]
  | x :: rest => x :: setLastAbsolute rest

/-- `Record.canonical_value`: canonicalised RR value used for comparisons. -/
def Record.canonical_value (r : Record) : String :=
  let value := pyStrip r.value
  let ctype := r.canonical_type
  let value :=
    if ctype = "CNAME" ∨ ctype = "NS" ∨ ctype = "PTR" then
      pyLower (ensureAbsolute value)
    else if ctype = "MX" then
      pyLower (ensureAbsolute value)
    else if ctype = "SRV" then
      let parts := pySplit value
      if parts = [] then value
      else joinSpace (setLastAbsolute parts)
    else value
  match r.priority with
  | some p => pyConcat (toString p) (pyConcat " " value)
  | none => value

/-- `Record.owner_for_zone`: the owner label relative to the provided
origin, as the source computes it (`@` at the apex, origin stripped when it
is a suffix, the absolute name otherwise). -/
def Record.owner_for_zone (r : Record) (origin : String) : String :=
  let absolute_origin := pyLower (ensureAbsolute origin)
  let absolute_name := r.canonical_name
  if absolute_name = absolute_origin then "@"
  else if pyEndsWith absolute_name absolute_origin then
    let relative := pyDropRight absolute_name (pyLen absolute_origin)
    let relative := if pyEndsWith relative "." then pyDropRight relative 1 else relative
    if relative = "" then "@" else relative
  else absolute_name

/-- `Record.key`: identity key used for equality checks. -/
def Record.key (r : Record) : String × String × String :=
  (r.canonical_name, r.canonical_type, r.canonical_value)

/-! ## `models.ZoneState`, `models.ZoneDiff`, `models.SOAConfig` -/

/-- `models.ZoneState`: the full state of a DNS zone. -/
structure ZoneState where
  origin : String
  records : List Record := []
  default_ttl : Option Int := none
deriving DecidableEq, Repr

/-- `ZoneState.find_soa`: the first record whose canonical type is SOA. -/
def ZoneState.find_soa (s : ZoneState) : Option Record :=
  s.records.find? (fun r => r.canonical_type == "SOA")

/-- `models.ZoneDiff`: high-level diff between two zone states. -/
structure ZoneDiff where
  added : List Record := []
  removed : List Record := []
  ttl_changed : List (Record × Record) := []
deriving DecidableEq, Repr

/-- `ZoneDiff.has_changes`. -/
def ZoneDiff.has_changes (d : ZoneDiff) : Bool :=
  !(d.added.isEmpty) || !(d.removed.isEmpty) || !(d.ttl_changed.isEmpty)

/-- `models.SOAConfig`: fully resolved SOA data. -/
structure SOAConfig where
  primary_ns : String
  admin_email : String
  serial : Int
  refresh : Int
  retry : Int
  expire : Int
  minimum : Int
deriving DecidableEq, Repr

/-! ## `diffing.py`

Python dictionaries are insertion-ordered with last-write-wins update that
keeps the original position of the key; they are embedded as association
lists with exactly that insert operation.  `diffing._build_value_map` builds
a `defaultdict(dict)` keyed by `(canonical_name, canonical_type)` whose
inner dicts are keyed by `canonical_value`; `diff_zones` then walks
`sorted(set(desired_map) | set(current_map))` — Python sorts `(str, str)`
pairs lexicographically by code point, embedded here as the executable
order `keyLe` on `String × String`. -/

/-- Insertion-ordered dictionary update: replace in place if the key is
present, append otherwise. -/
def alInsert {α β : Type} [DecidableEq α] (l : List (α × β)) (k : α) (v : β) :
    List (α × β) :=
  match l with
  | [] => [(k, v)]
  | (k', v') :: t => if k' = k then (k', v) :: t else (k', v') :: alInsert t k v

/-- Dictionary lookup (`d.get(k)` / `k in d`). -/
def alGet {α β : Type} [DecidableEq α] (l : List (α × β)) (k : α) : Option β :=
  match l with
  | [] => none
  | (k', v) :: t => if k' = k then some v else alGet t k

/-- Keys of the outer map, as the Python pair `(canonical_name,
canonical_type)` under lexicographic comparison. -/
abbrev DiffKey : Type := String × String

/-- Python `a < b` on `(str, str)` tuples: lexicographic on the
components. -/
def keyLt (a b : DiffKey) : Bool :=
  pyStrLt a.1 b.1 || (decide (a.1 = b.1) && pyStrLt a.2 b.2)

/-- Python `a <= b` on `(str, str)` tuples: the sort order of
`sorted(keys)`. -/
def keyLe (a b : DiffKey) : Bool :=
  keyLt a b || decide (a = b)

/-- Inner dict of `_build_value_map`: canonical value → owning record. -/
abbrev ValueMap : Type := List (String × Record)

/-- Outer `defaultdict(dict)` of `_build_value_map`. -/
abbrev OuterMap : Type := List (DiffKey × ValueMap)

/-- `defaultdict(dict)` update `index[key][value] = record`: a missing outer
key is appended with a fresh inner dict. -/
def outerInsert (m : OuterMap) (k : DiffKey) (cv : String) (r : Record) :
    OuterMap :=
  match m with
  | [] => [(k, alInsert [] cv r)]
  | (k', inner) :: t =>
    if k' = k then (k', alInsert inner cv r) :: t
    else (k', inner) :: outerInsert t k cv r

/-- The `(canonical_name, canonical_type)` outer key of a record. -/
def Record.diffKey (r : Record) : DiffKey :=
  (r.canonical_name, r.canonical_type)

/-- `diffing._build_value_map`: index records by owner/type/value, skipping
SOA records. -/
def build_value_map (state : ZoneState) : OuterMap :=
  state.records.foldl
    (fun m r =>
      if r.canonical_type = "SOA" then m
      else outerInsert m r.diffKey r.canonical_value r)
    []

/-- `sorted(set(desired_map) | set(current_map))`: the sorted union of the
outer keys of the two maps. -/
def sortedDiffKeys (dmap cmap : OuterMap) : List DiffKey :=
  List.insertionSort (fun a b => keyLe a b = true)
    ((dmap.map (fun e => e.1) ++ cmap.map (fun e => e.1)).dedup)

/-- Per-key records of `xm` whose canonical value is absent from `ym`
(the body of the `added`/`removed` loops of `diff_zones`). -/
def onlyIn (xm ym : OuterMap) (k : DiffKey) : List Record :=
  let xv := (alGet xm k).getD []
  let yv := (alGet ym k).getD []
  (xv.filter (fun p => (alGet yv p.1).isNone)).map (fun p => p.2)

/-- Per-key `(current_record, desired_record)` pairs sharing a canonical
value but differing in TTL (the `ttl_changed` branch of `diff_zones`). -/
def ttlChangedAt (dmap cmap : OuterMap) (k : DiffKey) : List (Record × Record) :=
  let dv := (alGet dmap k).getD []
  let cv := (alGet cmap k).getD []
  dv.filterMap (fun p =>
    match alGet cv p.1 with
    | some current_record =>
      if current_record.ttl ≠ p.2.ttl then some (current_record, p.2) else none
    | none => none)

/-- `diffing.diff_zones`: produce a diff between desired and current zone
states.  Entries are appended in sorted outer-key order; within a key, in
dict insertion order, exactly as the Python loops do. -/
def diff_zones (desired current : ZoneState) : ZoneDiff :=
  let dmap := build_value_map desired
  let cmap := build_value_map current
  let keys := sortedDiffKeys dmap cmap
  { added := keys.flatMap (fun k => onlyIn dmap cmap k)
    removed := keys.flatMap (fun k => onlyIn cmap dmap k)
    ttl_changed := keys.flatMap (fun k => ttlChangedAt dmap cmap k) }

/-! ## `controller.py` — SOA parsing, serial negotiation, SOA resolution -/

/-- Failure kinds of `_parse_soa_record`: `Bind9CtlError("SOA record is
malformed.")` for fewer than seven tokens, and the uncaught `ValueError`
from `int(...)` on a non-numeric token. -/
inductive SOAParseErr where
  | malformed
  | intValueError
deriving DecidableEq, Repr

/-- The dict returned by `_parse_soa_record`. -/
structure SOAFields where
  primary_ns : String
  admin_email : String
  serial : Int
  refresh : Int
  retry : Int
  expire : Int
  minimum : Int
deriving DecidableEq, Repr

/-- `controller._parse_soa_record`: split the SOA value on whitespace
(`parts = record.value.split()`), fail with the malformed-SOA error below
seven tokens, then build the result dict from `parts[0]`–`parts[6]`,
converting tokens 2–6 with `int(...)`. -/
def parse_soa_record (record : Record) : Except SOAParseErr SOAFields :=
  if (pySplit record.value).length < 7 then .error .malformed
  else
    match pySplit record.value with
    | p0 :: p1 :: p2 :: p3 :: p4 :: p5 :: p6 :: _ =>
      match pyInt p2, pyInt p3, pyInt p4, pyInt p5, pyInt p6 with
      | some serial, some refresh, some retry, some expire, some minimum =>
        .ok ⟨p0, p1, serial, refresh, retry, expire, minimum⟩
      | _, _, _, _, _ => .error .intValueError
    | _ => .error .malformed

/-- The ambient clock of `_suggest_serial`: `int(time.time())` and
`int(datetime.now(tz=timezone.utc).strftime("%Y%m%d00"))`. -/
structure Clock where
  epochSeconds : Int
  utcDateSerial : Int
deriving DecidableEq, Repr

/-- The strategy-computed candidate of `_suggest_serial` (any strategy
string other than `"epoch"` takes the `date` branch). -/
def serial_candidate (strategy : String) (clock : Clock) : Int :=
  if strategy = "epoch" then clock.epochSeconds else clock.utcDateSerial

/-- The `while candidate <= current_serial: candidate += 1` loop of
`_suggest_serial`. -/
def bump_serial (candidate current_serial : Int) : Int :=
  if candidate ≤ current_serial then bump_serial (candidate + 1) current_serial
  else candidate
termination_by (current_serial + 1 - candidate).toNat
decreasing_by omega

/-- `controller._suggest_serial`: a serial satisfying the chosen strategy,
bumped past the current serial when one exists. -/
def suggest_serial (strategy : String) (clock : Clock) (current_serial : Option Int) : Int :=
  let candidate := serial_candidate strategy clock
  match current_serial with
  | none => candidate
  | some prior => bump_serial candidate prior

/-- `yaml_loader.SOASpec`: optional SOA overrides from the desired YAML
(`desired.soa_overrides.dict()` yields `None` for unset fields). -/
structure SOASpec where
  primary_ns : Option String := none
  admin_email : Option String := none
  serial : Option Int := none
  refresh : Option Int := none
  retry : Option Int := none
  expire : Option Int := none
  minimum : Option Int := none
deriving DecidableEq, Repr

/-- `yaml_loader.DesiredZone`: desired zone material produced from YAML. -/
structure DesiredZone where
  state : ZoneState
  soa_overrides : Option SOASpec := none
  ignore : List String := []
deriving DecidableEq, Repr

/-- Python `a or b` where `a` is an `int | None`: `None` and `0` are falsy
and fall through to `b`. -/
def pyOrInt (a : Option Int) (b : Int) : Int :=
  match a with
  | some n => if n = 0 then b else n
  | none => b

/-- Python `a or b` where `a` is a `str | None`: `None` and `""` are falsy
and fall through to `b`. -/
def pyOrStr (a : Option String) (b : String) : String :=
  match a with
  | some s => if s = "" then b else s
  | none => b

/-- The subset of `config.AppConfig` consumed by the embedded controller
functions (the remaining fields are I/O plumbing: paths, TSIG credentials,
network endpoints). -/
structure AppConfig where
  named_checkzone_bin : String := "named-checkzone"
  rndc_bin : String := "rndc"
  rndc_server : String := "127.0.0.1"
  bind_view : String := "default"
  serial_strategy : String := "date"
  default_record_ttl : Int := 3600
  git_auto_commit : Bool := false
  git_commit_template : String := "feat(zone): update {zone}"
  apply_strategy : String := "dynamic"
deriving DecidableEq, Repr

/-- `controller._build_soa_config`: combine the live SOA (when present and
parseable), the YAML overrides, and the serial strategy, with Python `or`
falsiness at every resolution step.  The parse failure of a malformed live
SOA record propagates. -/
def build_soa_config (config : AppConfig) (clock : Clock) (desired : DesiredZone)
    (current : ZoneState) : Except SOAParseErr SOAConfig :=
  let base_record := current.find_soa
  let baseE : Except SOAParseErr (Option SOAFields) :=
    match base_record with
    | some record => (parse_soa_record record).map some
    | none => .ok none
  match baseE with
  | .error e => .error e
  | .ok base =>
    let overrides := (desired.soa_overrides).getD {}
    let primary_ns :=
      pyOrStr overrides.primary_ns
        (pyOrStr (base.map (fun b => b.primary_ns)) (pyConcat "ns." desired.state.origin))
    let admin_email :=
      pyOrStr overrides.admin_email
        (pyOrStr (base.map (fun b => b.admin_email)) (pyConcat "hostmaster." desired.state.origin))
    let serial_override := overrides.serial
    let current_serial := base.map (fun b => b.serial)
    let serial := pyOrInt serial_override (suggest_serial config.serial_strategy clock current_serial)
    .ok
      { primary_ns := primary_ns
        admin_email := admin_email
        serial := serial
        refresh := pyOrInt overrides.refresh (pyOrInt (base.map (fun b => b.refresh)) 3600)
        retry := pyOrInt overrides.retry (pyOrInt (base.map (fun b => b.retry)) 600)
        expire := pyOrInt overrides.expire (pyOrInt (base.map (fun b => b.expire)) 604800)
        minimum := pyOrInt overrides.minimum (pyOrInt (base.map (fun b => b.minimum)) 86400) }

/-! ## `fnmatch` — glob matching used by `_matches_pattern`

`fnmatch.fnmatch` on POSIX lower-cases nothing (`os.path.normcase` is the
identity) and matches the whole name against the translated pattern:
`*` matches any character run, `?` any single character, `[...]`, `[!...]`
character classes with `-` ranges, a `]` directly after `[` or `[!` is a
literal member, and an unterminated `[` is a literal `[`. -/

/-- One token of the translated pattern. -/
inductive GlobTok where
  | star
  | anyChar
  | lit (c : Char)
  | cls (neg : Bool) (items : List (Char × Char))
deriving DecidableEq, Repr

/-- Scan a character-class body up to the closing `]`; returns the body and
the rest of the pattern, or `none` when the class is unterminated. -/
def scanClass : List Char → Option (List Char × List Char)
  | [] => none
  | c :: rest =>
    if c = ']' then some ([], rest)
    else (scanClass rest).map (fun p => (c :: p.1, p.2))

/-- The optional leading `!` of a character class (negation). -/
def splitClassNeg (l : List Char) : Bool × List Char :=
  match l with
  | [] => (false, [])
  | c :: rest => if c = '!' then (true, rest) else (false, c :: rest)

/-- The body of a character class: a `]` in the first position is a literal
member, then scan for the closing `]`. -/
def splitClassBody (l : List Char) : Option (List Char × List Char) :=
  match l with
  | [] => none
  | c :: rest =>
    if c = ']' then (scanClass rest).map (fun p => (']' :: p.1, p.2))
    else scanClass (c :: rest)

/-- Parse the inside of `[...]`: negation flag, class body, rest of the
pattern; `none` when the class is unterminated. -/
def splitClass (l : List Char) : Option (Bool × List Char × List Char) :=
  let (neg, l1) := splitClassNeg l
  (splitClassBody l1).map (fun p => (neg, p.1, p.2))

/-- Range items of a character class: `a-b` is a range, anything else a
literal (a trailing `-` stays literal). -/
def classItems : List Char → List (Char × Char)
  | a :: '-' :: b :: rest => (a, b) :: classItems rest
  | a :: rest => (a, a) :: classItems rest
  | [] => []

/-- `fnmatch.translate`, fuelled: the translator consumes at least one
pattern character per emitted token (`splitClass` never returns a longer
rest, see `splitClass_length`), so `fuel = l.length` steps always suffice;
the fuel-exhausted branch is unreachable.  The fuel keeps the recursion
structural so that the kernel can evaluate concrete patterns. -/
def translateGlobF (fuel : Nat) (l : List Char) : List GlobTok :=
  match fuel, l with
  | _, [] => []
  | 0, _ => []
  | fuel + 1, c :: rest =>
    if c = '*' then .star :: translateGlobF fuel rest
    else if c = '?' then .anyChar :: translateGlobF fuel rest
    else if c = '[' then
      match splitClass rest with
      | some (neg, content, remaining) =>
        .cls neg (classItems content) :: translateGlobF fuel remaining
      | none => .lit '[' :: translateGlobF fuel rest
    else .lit c :: translateGlobF fuel rest

/-- `fnmatch.translate`: compile a glob pattern to a token list. -/
def translateGlob (l : List Char) : List GlobTok :=
  translateGlobF l.length l

/-- Membership of a character in a (possibly negated) class. -/
def matchClass (neg : Bool) (items : List (Char × Char)) (c : Char) : Bool :=
  let m := items.any (fun p => p.1 ≤ c && c ≤ p.2)
  if neg then !m else m

/-- Regex-style full match of the translated pattern against the name
(`star` is `.*`: it matches exactly when the rest of the pattern matches
some suffix of the input). -/
def matchToks (toks : List GlobTok) (s : List Char) : Bool :=
  match toks, s with
  | [], [] => true
  | [], _ :: _ => false
  | .star :: rest, s => (s.tails).any (fun t => matchToks rest t)
  | .anyChar :: rest, s =>
    match s with
    | [] => false
    | _ :: t => matchToks rest t
  | .lit a :: rest, s =>
    match s with
    | [] => false
    | c :: t => a == c && matchToks rest t
  | .cls neg items :: rest, s =>
    match s with
    | [] => false
    | c :: t => matchClass neg items c && matchToks rest t

/-- `fnmatch.fnmatch(name, pat)` on POSIX (where `os.path.normcase` is the
identity): full glob match of the whole name. -/
def fnmatch (name pat : String) : Bool :=
  matchToks (translateGlob pat.data) name.data

/-! ## `controller.py` — record filtering, dynamic updates, apply -/

/-- `controller._matches_pattern`: `True` if the lower-cased name matches
any lower-cased ignore pattern. -/
def matches_pattern (name : String) (patterns : List String) : Bool :=
  let lowered := pyLower name
  patterns.any (fun pattern => fnmatch lowered (pyLower pattern))

/-- `controller._filter_records`: drop records whose *raw* `name` field
matches an ignore pattern, keeping every SOA record; an empty pattern list
returns the state unchanged. -/
def filter_records (state : ZoneState) (ignore_patterns : List String) : ZoneState :=
  if ignore_patterns = [] then state
  else
    { origin := state.origin
      records := state.records.filter
        (fun record => record.canonical_type == "SOA" || !(matches_pattern record.name ignore_patterns))
      default_ttl := state.default_ttl }

/-- One dnspython operation submitted by `_apply_dynamic_updates`:
`update.delete(name, type, value)` or `update.add(name, ttl, type, value)`. -/
inductive DnsOp where
  | delete (name : String) (type : String) (value : String)
  | add (name : String) (ttl : Int) (type : String) (value : String)
deriving DecidableEq, Repr

/-- Whether an operation is a delete. -/
def DnsOp.isDelete : DnsOp → Bool
  | .delete _ _ _ => true
  | .add _ _ _ _ => false

/-- Whether an operation is an add. -/
def DnsOp.isAdd : DnsOp → Bool
  | .delete _ _ _ => false
  | .add _ _ _ _ => true

/-- The operation sequence built by `_apply_dynamic_updates`: deletes for
removals, deletes for the old half of every TTL change, adds for additions,
adds for the new half of every TTL change — in that order. -/
def dynamic_update_ops (diff : ZoneDiff) : List DnsOp :=
  (diff.removed.map (fun record => DnsOp.delete record.name record.type record.value))
    ++ (diff.ttl_changed.map (fun p => DnsOp.delete p.1.name p.1.type p.1.value))
    ++ (diff.added.map (fun record => DnsOp.add record.name record.ttl record.type record.value))
    ++ (diff.ttl_changed.map (fun p => DnsOp.add p.2.name p.2.ttl p.2.type p.2.value))

/-- `renderer.RenderResult`: rendered zone text and destination path. -/
structure RenderResult where
  text : String
  output_path : String
deriving DecidableEq, Repr

/-- `controller.PlanResult`: everything needed to apply a change. -/
structure PlanResult where
  desired : ZoneState
  current : ZoneState
  diff : ZoneDiff
  soa : SOAConfig
  render : RenderResult
deriving DecidableEq, Repr

/-- `ZoneController.plan`, with the external collaborators (YAML loading,
AXFR fetch, template rendering, the clock) supplied as inputs: filter the
fetched state, diff desired against the filtered state, negotiate the SOA,
render.  The `PlanResult` keeps the *unfiltered* current state. -/
def plan_pure (config : AppConfig) (clock : Clock)
    (renderer : ZoneState → SOAConfig → RenderResult)
    (desired_zone : DesiredZone) (current_state : ZoneState) :
    Except SOAParseErr PlanResult :=
  let filtered_current := filter_records current_state desired_zone.ignore
  let diff := diff_zones desired_zone.state filtered_current
  match build_soa_config config clock desired_zone current_state with
  | .error e => .error e
  | .ok soa =>
    .ok
      { desired := desired_zone.state
        current := current_state
        diff := diff
        soa := soa
        render := renderer desired_zone.state soa }

/-- External side effects of `ZoneController.apply`, in program order. -/
inductive Effect where
  | prompt
  | writeZoneFile
  | runCheckzone
  | rndcReload
  | dynamicUpdateSend (ops : List DnsOp)
  | gitCommit
deriving DecidableEq, Repr

/-- Failure outcomes of `ZoneController.apply`. -/
inductive ApplyErr where
  | checkzoneFailed
  | rndcNotConfigured
  | reloadFailed
  | dynamicUpdateFailed (rcode : Int)
  | commitFailed
deriving DecidableEq, Repr

/-- Ambient inputs of `ZoneController.apply`: the operator's answer at the
confirmation prompt, exit status of the external commands, the dynamic
update response code (`NOERROR = 0`), and the git probe. -/
structure ApplyEnv where
  confirmResponse : String
  checkzoneOk : Bool
  reloadOk : Bool
  updateRcode : Int
  isGitRepo : Bool
  commitOk : Bool
deriving DecidableEq, Repr

/-- `controller._confirm`: `input(...).strip().lower() in {"y", "yes"}`. -/
def confirm_accepts (response : String) : Bool :=
  let r := pyLower (pyStrip response)
  r == "y" || r == "yes"

/-- The trailing auto-commit step of `ZoneController.apply`. -/
def gitCommitStep (config : AppConfig) (env : ApplyEnv) (fx : List Effect) :
    List Effect × Option ApplyErr :=
  if config.git_auto_commit ∧ env.isGitRepo then
    (fx ++ [.gitCommit], if env.commitOk then none else some .commitFailed)
  else (fx, none)

/-- `ZoneController.apply` as an effect trace: the ordered list of external
side effects performed, and the error the call terminates with, if any.
Mirrors the source's control flow: early return on an unchanged diff, the
confirmation gate, the zone-file write, optional `named-checkzone`
validation, strategy dispatch (`rndc reload` vs. dynamic update batch), and
optional git auto-commit. -/
def apply_trace (config : AppConfig) (plan_result : PlanResult) (assume_yes : Bool)
    (env : ApplyEnv) : List Effect × Option ApplyErr :=
  if !plan_result.diff.has_changes then ([], none)
  else if !assume_yes && !confirm_accepts env.confirmResponse then ([.prompt], none)
  else
    let fx0 : List Effect := if assume_yes then [] else [.prompt]
    let fx1 := fx0 ++ [Effect.writeZoneFile]
    if config.named_checkzone_bin ≠ "" ∧ env.checkzoneOk = false then
      (fx1 ++ [.runCheckzone], some .checkzoneFailed)
    else
      let fx2 := fx1 ++ (if config.named_checkzone_bin ≠ "" then [Effect.runCheckzone] else [])
      if config.apply_strategy = "zone" then
        if config.rndc_bin = "" then (fx2, some .rndcNotConfigured)
        else if env.reloadOk = false then (fx2 ++ [.rndcReload], some .reloadFailed)
        else gitCommitStep config env (fx2 ++ [.rndcReload])
      else
        if plan_result.diff.has_changes then
          let ops := dynamic_update_ops plan_result.diff
          if env.updateRcode ≠ 0 then
            (fx2 ++ [.dynamicUpdateSend ops], some (.dynamicUpdateFailed env.updateRcode))
          else gitCommitStep config env (fx2 ++ [.dynamicUpdateSend ops])
        else gitCommitStep config env fx2

/-! ## Theorems -/

/-- The class scan consumes at least the closing bracket: used to justify
the fuel bound of `translateGlobF`. -/
theorem scanClass_length {l content rest : List Char}
    (h : scanClass l = some (content, rest)) : rest.length < l.length := by
  induction l generalizing content rest with
  | nil => simp [scanClass] at h
  | cons c t ih =>
    rw [scanClass] at h
    split at h
    · simp only [Option.some.injEq, Prod.mk.injEq] at h
      obtain ⟨-, rfl⟩ := h
      simp
    · simp only [Option.map_eq_some'] at h
      obtain ⟨⟨content', rest'⟩, hsc, hpr⟩ := h
      simp only [Prod.mk.injEq] at hpr
      obtain ⟨-, rfl⟩ := hpr
      have := ih hsc
      simp only [List.length_cons]
      omega

theorem splitClassNeg_length (l : List Char) :
    (splitClassNeg l).2.length ≤ l.length := by
  unfold splitClassNeg
  split
  · simp
  · split <;> simp

theorem splitClassBody_length {l content rest : List Char}
    (h : splitClassBody l = some (content, rest)) : rest.length < l.length := by
  unfold splitClassBody at h
  split at h
  · simp at h
  · split at h
    · simp only [Option.map_eq_some'] at h
      obtain ⟨⟨c', r'⟩, hsc, hpr⟩ := h
      simp only [Prod.mk.injEq] at hpr
      obtain ⟨-, rfl⟩ := hpr
      have := scanClass_length hsc
      simp only [List.length_cons]
      omega
    · exact scanClass_length h

theorem splitClass_length {l : List Char} {neg : Bool} {content rest : List Char}
    (h : splitClass l = some (neg, content, rest)) : rest.length ≤ l.length := by
  unfold splitClass at h
  simp only [Option.map_eq_some'] at h
  obtain ⟨⟨c', r'⟩, hsc, hpr⟩ := h
  simp only [Prod.mk.injEq] at hpr
  obtain ⟨-, -, rfl⟩ := hpr
  have h1 := splitClassBody_length hsc
  have h2 := splitClassNeg_length l
  omega

/-- Closed form of the serial bump loop. -/
theorem bump_serial_eq (candidate current_serial : Int) :
    bump_serial candidate current_serial =
      if candidate ≤ current_serial then current_serial + 1 else candidate := by
  induction candidate, current_serial using bump_serial.induct with
  | case1 candidate current_serial h ih =>
    rw [bump_serial, if_pos h, if_pos h, ih]
    split <;> omega
  | case2 candidate current_serial h =>
    rw [bump_serial, if_neg h, if_neg h]

/-- C2: with no serial override and a prior live serial, the negotiated
serial is the strategy candidate (`epoch`: current Unix seconds; `date`:
`YYYYMMDD00` in UTC) when that candidate already exceeds the prior serial,
and exactly the prior serial plus one otherwise — for every strategy and
every prior serial, including priors from the future. -/
theorem suggest_serial_exceeds_prior (strategy : String) (clock : Clock) (prior : Int) :
    suggest_serial strategy clock (some prior) =
      (if serial_candidate strategy clock ≤ prior then prior + 1
       else serial_candidate strategy clock)
    ∧ prior < suggest_serial strategy clock (some prior)
    ∧ serial_candidate "epoch" clock = clock.epochSeconds
    ∧ serial_candidate "date" clock = clock.utcDateSerial := by
  have hloop : suggest_serial strategy clock (some prior) =
      (if serial_candidate strategy clock ≤ prior then prior + 1
       else serial_candidate strategy clock) := by
    unfold suggest_serial
    exact bump_serial_eq _ _
  refine ⟨hloop, ?_, rfl, by simp [serial_candidate]⟩
  rw [hloop]
  split <;> omega

/-- C3 counterexample: an explicitly supplied serial override of `0` is
*not* used verbatim — Python's `serial_override or _suggest_serial(...)`
treats `0` as falsy, so the strategy candidate (here epoch second 5) wins
and the negotiated serial is `5`, not the overridden `0`. -/
theorem build_soa_config_zero_override_cex :
    (({ state := ⟨"example.com.", [], none⟩,
        soa_overrides := some { serial := some 0 },
        ignore := [] } : DesiredZone).soa_overrides.bind SOASpec.serial = some 0)
    ∧ build_soa_config { serial_strategy := "epoch" } ⟨5, 2025101200⟩
        { state := ⟨"example.com.", [], none⟩,
          soa_overrides := some { serial := some 0 },
          ignore := [] }
        ⟨"example.com.", [], none⟩ =
      .ok { primary_ns := "ns.example.com.", admin_email := "hostmaster.example.com.",
            serial := 5, refresh := 3600, retry := 600, expire := 604800, minimum := 86400 }
    ∧ (5 : Int) ≠ 0 := by
  exact ⟨rfl, rfl, by decide⟩

/-- C3 (amended): a *non-zero* explicitly supplied serial override is used
verbatim — independent of the clock, the strategy, and any prior live
serial, so the monotonicity bump is skipped; an override of `0` is falsy in
Python and falls through to the strategy candidate. -/
theorem build_soa_config_override_verbatim (config : AppConfig) (clock : Clock)
    (desired : DesiredZone) (current : ZoneState) (ov : SOASpec) (v : Int)
    (out : SOAConfig) (hov : desired.soa_overrides = some ov)
    (hser : ov.serial = some v) (hnz : v ≠ 0)
    (hok : build_soa_config config clock desired current = .ok out) :
    out.serial = v := by
  rcases hbase : current.find_soa with - | record
  · simp only [build_soa_config, hov, hbase, Except.ok.injEq] at hok
    rw [← hok]
    simp [hser, pyOrInt, hnz]
  · rcases hparse : parse_soa_record record with e | fields
    · simp only [build_soa_config, hov, hbase, hparse, Except.map] at hok
      exact absurd hok (by simp)
    · simp only [build_soa_config, hov, hbase, hparse, Except.map, Except.ok.injEq] at hok
      rw [← hok]
      simp [hser, pyOrInt, hnz]

/-- Witness for `build_soa_config_override_verbatim` at a concrete non-zero
override. -/
theorem build_soa_config_override_verbatim_witness :
    ({ primary_ns := "ns.example.com.", admin_email := "hostmaster.example.com.",
       serial := 42, refresh := 3600, retry := 600, expire := 604800,
       minimum := 86400 } : SOAConfig).serial = 42 :=
  build_soa_config_override_verbatim { serial_strategy := "epoch" } ⟨5, 2025101200⟩
    { state := ⟨"example.com.", [], none⟩,
      soa_overrides := some { serial := some 42 },
      ignore := [] }
    ⟨"example.com.", [], none⟩ { serial := some 42 } 42 _ rfl rfl (by decide) rfl

/-- C9 counterexample: a live SOA value with seven tokens whose serial
token is not numeric does *not* succeed — `int("x")` raises an uncaught
`ValueError`, which is not the malformed-SOA error either. -/
theorem parse_soa_record_seven_tokens_cex :
    (pySplit (⟨"example.com.", "SOA", 3600, "ns. mail. x 600 600 604800 86400",
        none⟩ : Record).value).length = 7
    ∧ parse_soa_record ⟨"example.com.", "SOA", 3600, "ns. mail. x 600 600 604800 86400", none⟩ =
        .error .intValueError
    ∧ SOAParseErr.intValueError ≠ SOAParseErr.malformed := by
  exact ⟨by decide, rfl, by decide⟩

/-- C9 (amended): parsing fails with the malformed-SOA error exactly when
the value has fewer than seven whitespace-separated tokens; with seven or
more tokens *whose 3rd–7th tokens parse as integers* it succeeds and
returns the seven fields taken from the first seven tokens in order; a
non-integer numeric token instead raises Python's `ValueError`. -/
theorem parse_soa_record_amended (record : Record) :
    ((parse_soa_record record = .error .malformed) ↔ (pySplit record.value).length < 7)
    ∧ (∀ p0 p1 p2 p3 p4 p5 p6 : String, ∀ rest : List String, ∀ n2 n3 n4 n5 n6 : Int,
        pySplit record.value = p0 :: p1 :: p2 :: p3 :: p4 :: p5 :: p6 :: rest →
        pyInt p2 = some n2 → pyInt p3 = some n3 → pyInt p4 = some n4 →
        pyInt p5 = some n5 → pyInt p6 = some n6 →
        parse_soa_record record = .ok ⟨p0, p1, n2, n3, n4, n5, n6⟩) := by
  constructor
  · unfold parse_soa_record
    split
    · rename_i hlt
      exact ⟨fun _ => hlt, fun _ => rfl⟩
    · rename_i hge
      constructor
      · intro h
        split at h
        · split at h <;> simp_all
        · rename_i hshape
          exfalso
          rcases hsplit : pySplit record.value with - | ⟨a0, l0⟩
          · rw [hsplit] at hge
            simp at hge
          · rcases l0 with - | ⟨a1, l1⟩
            · rw [hsplit] at hge; simp at hge
            · rcases l1 with - | ⟨a2, l2⟩
              · rw [hsplit] at hge; simp at hge
              · rcases l2 with - | ⟨a3, l3⟩
                · rw [hsplit] at hge; simp at hge
                · rcases l3 with - | ⟨a4, l4⟩
                  · rw [hsplit] at hge; simp at hge
                  · rcases l4 with - | ⟨a5, l5⟩
                    · rw [hsplit] at hge; simp at hge
                    · rcases l5 with - | ⟨a6, l6⟩
                      · rw [hsplit] at hge; simp at hge
                      · exact hshape a0 a1 a2 a3 a4 a5 a6 l6 hsplit
      · intro h
        omega
  · intro p0 p1 p2 p3 p4 p5 p6 rest n2 n3 n4 n5 n6 hsplit h2 h3 h4 h5 h6
    have hlen : ¬ (pySplit record.value).length < 7 := by
      rw [hsplit]
      simp only [List.length_cons]
      omega
    unfold parse_soa_record
    rw [if_neg hlen, hsplit]
    split
    · rename_i q0 q1 q2 q3 q4 q5 q6 qtail heq
      simp only [List.cons.injEq] at heq
      obtain ⟨rfl, rfl, rfl, rfl, rfl, rfl, rfl, -⟩ := heq
      rw [h2, h3, h4, h5, h6]
    · rename_i hshape
      exact (hshape p0 p1 p2 p3 p4 p5 p6 rest rfl).elim

/-- Witness for `parse_soa_record_amended` at a concrete seven-token SOA
value. -/
theorem parse_soa_record_amended_witness :
    parse_soa_record ⟨"example.com.", "SOA", 3600,
        "ns.example.com. hostmaster.example.com. 2025101101 3600 600 604800 86400", none⟩ =
      .ok ⟨"ns.example.com.", "hostmaster.example.com.", 2025101101, 3600, 600, 604800, 86400⟩ :=
  (parse_soa_record_amended _).2 "ns.example.com." "hostmaster.example.com."
    "2025101101" "3600" "600" "604800" "86400" [] 2025101101 3600 600 604800 86400
    (by decide) (by decide) (by decide) (by decide) (by decide) (by decide)

/-- C8 counterexample: for the record named `".example.com"` under origin
`"example.com"`, the canonical origin is a strict suffix of the canonical
name and stripping the origin and the trailing separator leaves the empty
label, so the claim's second case predicts `""` — but the code's
`relative or "@"` fallback returns `"@"`. -/
theorem owner_for_zone_empty_label_cex :
    ((⟨".example.com", "A", 300, "1.2.3.4", none⟩ : Record).canonical_name ≠
        pyLower (ensureAbsolute "example.com"))
    ∧ pyEndsWith (⟨".example.com", "A", 300, "1.2.3.4", none⟩ : Record).canonical_name
        (pyLower (ensureAbsolute "example.com")) = true
    ∧ (let relative :=
        pyDropRight (⟨".example.com", "A", 300, "1.2.3.4", none⟩ : Record).canonical_name
          (pyLen (pyLower (ensureAbsolute "example.com")))
       (if pyEndsWith relative "." then pyDropRight relative 1 else relative) = "")
    ∧ (⟨".example.com", "A", 300, "1.2.3.4", none⟩ : Record).owner_for_zone "example.com" = "@"
    ∧ ("@" : String) ≠ "" := by
  exact ⟨by decide, by decide, by decide, by decide, by decide⟩

/-- C8 (amended): `owner_for_zone(origin)` returns `@` when the canonical
name equals the canonical origin; when the canonical origin is a strict
suffix of the canonical name it returns the relative label obtained by
stripping the origin and a trailing separator, *except* that an empty label
(canonical name = `"." + origin`) yields `@`; otherwise it returns the
absolute canonical name unchanged. -/
theorem owner_for_zone_amended (r : Record) (origin : String) :
    (r.canonical_name = pyLower (ensureAbsolute origin) →
      r.owner_for_zone origin = "@")
    ∧ (r.canonical_name ≠ pyLower (ensureAbsolute origin) →
        pyEndsWith r.canonical_name (pyLower (ensureAbsolute origin)) = true →
        r.owner_for_zone origin =
          (let relative := pyDropRight r.canonical_name (pyLen (pyLower (ensureAbsolute origin)))
           let label := if pyEndsWith relative "." then pyDropRight relative 1 else relative
           if label = "" then "@" else label))
    ∧ (pyEndsWith r.canonical_name (pyLower (ensureAbsolute origin)) = false →
        r.canonical_name ≠ pyLower (ensureAbsolute origin) →
        r.owner_for_zone origin = r.canonical_name) := by
  refine ⟨fun heq => ?_, fun hne hsuf => ?_, fun hsuf hne => ?_⟩
  · unfold Record.owner_for_zone
    rw [if_pos heq]
  · unfold Record.owner_for_zone
    rw [if_neg hne, if_pos hsuf]
  · unfold Record.owner_for_zone
    rw [if_neg hne, if_neg (by rw [hsuf]; exact Bool.false_ne_true)]

/-- Witness for `owner_for_zone_amended`: the one-label owner
`www.example.com.` relativises to `www` under origin `example.com.`. -/
theorem owner_for_zone_amended_witness :
    (⟨"www.example.com.", "A", 300, "1.2.3.4", none⟩ : Record).owner_for_zone "example.com."
      = "www" := by
  have h := (owner_for_zone_amended ⟨"www.example.com.", "A", 300, "1.2.3.4", none⟩
    "example.com.").2.1 (by decide) (by decide)
  rw [h]
  decide

/-- An empty pattern list matches nothing. -/
theorem matches_pattern_nil (name : String) : matches_pattern name [] = false := by
  simp [matches_pattern]

/-- C10: the record filter preserves origin and default TTL, keeps the
surviving records in their original relative order (it is a `List.filter`
with a per-record predicate computed from the record and the patterns
alone), and returns the input state itself when the pattern list is
empty. -/
theorem filter_records_frame (state : ZoneState) (ignore_patterns : List String) :
    (filter_records state ignore_patterns).origin = state.origin
    ∧ (filter_records state ignore_patterns).default_ttl = state.default_ttl
    ∧ (filter_records state ignore_patterns).records =
        state.records.filter
          (fun record =>
            record.canonical_type == "SOA" || !(matches_pattern record.name ignore_patterns))
    ∧ filter_records state [] = state := by
  have hid : filter_records state [] = state := by rw [filter_records]; simp
  by_cases h : ignore_patterns = []
  · subst h
    refine ⟨by rw [hid], by rw [hid], ?_, hid⟩
    rw [hid]
    exact (List.filter_eq_self.mpr (fun a _ => by rw [matches_pattern_nil]; simp)).symm
  · rw [filter_records, if_neg h]
    exact ⟨rfl, rfl, rfl, hid⟩

/-- C4 counterexample: a non-SOA record stored under the relative owner
name `"www"` has canonical owner name `"www."`, which matches the ignore
pattern `"www."` case-insensitively — so the claim says the filter must
remove it — yet `_filter_records` keeps it, because the code matches the
*raw* `record.name` (`"www"`), not the canonical name. -/
theorem filter_records_canonical_name_cex :
    ((⟨"www", "A", 300, "1.2.3.4", none⟩ : Record).canonical_type ≠ "SOA")
    ∧ fnmatch (pyLower (⟨"www", "A", 300, "1.2.3.4", none⟩ : Record).canonical_name)
        (pyLower "www.") = true
    ∧ (filter_records ⟨"example.com.", [⟨"www", "A", 300, "1.2.3.4", none⟩], none⟩
        ["www."]).records = [⟨"www", "A", 300, "1.2.3.4", none⟩] := by
  exact ⟨by decide, by decide, by decide⟩

/-- C4 (amended): the filter removes exactly those records whose *raw*
stored owner name (possibly relative, not canonicalised), lower-cased,
matches at least one pattern under case-insensitive glob matching, except
that records of canonical type SOA are always retained; and `plan()`
applies the filter to the current state only — the desired state enters
the diff unfiltered and the `PlanResult` keeps the unfiltered current
state. -/
theorem filter_records_raw_name_amended (state : ZoneState) (patterns : List String)
    (config : AppConfig) (clock : Clock)
    (renderer : ZoneState → SOAConfig → RenderResult)
    (desired_zone : DesiredZone) (current_state : ZoneState) (pr : PlanResult)
    (hplan : plan_pure config clock renderer desired_zone current_state = .ok pr) :
    (filter_records state patterns).records =
      state.records.filter
        (fun record =>
          record.canonical_type == "SOA" || !(matches_pattern record.name patterns))
    ∧ pr.diff = diff_zones desired_zone.state (filter_records current_state desired_zone.ignore)
    ∧ pr.desired = desired_zone.state
    ∧ pr.current = current_state := by
  refine ⟨(filter_records_frame state patterns).2.2.1, ?_⟩
  unfold plan_pure at hplan
  rcases hsoa : build_soa_config config clock desired_zone current_state with e | soa
  · rw [hsoa] at hplan
    exact absurd hplan (by simp)
  · rw [hsoa] at hplan
    simp only [Except.ok.injEq] at hplan
    rw [← hplan]
    exact ⟨rfl, rfl, rfl⟩

/-- Witness for `filter_records_raw_name_amended` at a concrete plan: one
desired record, an empty current zone, one ignore pattern. -/
theorem filter_records_raw_name_amended_witness :
    (filter_records ⟨"example.com.", [⟨"www", "A", 300, "1.2.3.4", none⟩], none⟩
        ["www."]).records =
      (⟨"example.com.", [⟨"www", "A", 300, "1.2.3.4", none⟩], none⟩ : ZoneState).records.filter
        (fun record =>
          record.canonical_type == "SOA" || !(matches_pattern record.name ["www."]))
    ∧ ({ desired := ⟨"example.com.", [⟨"www", "A", 300, "1.2.3.4", none⟩], none⟩,
         current := ⟨"example.com.", [], none⟩,
         diff := diff_zones ⟨"example.com.", [⟨"www", "A", 300, "1.2.3.4", none⟩], none⟩
           (filter_records ⟨"example.com.", [], none⟩ ["*.ignored.example.com."]),
         soa := { primary_ns := "ns.example.com.", admin_email := "hostmaster.example.com.",
                  serial := 5, refresh := 3600, retry := 600, expire := 604800,
                  minimum := 86400 },
         render := ⟨"", ""⟩ } : PlanResult).diff =
        diff_zones ⟨"example.com.", [⟨"www", "A", 300, "1.2.3.4", none⟩], none⟩
          (filter_records ⟨"example.com.", [], none⟩ ["*.ignored.example.com."])
    ∧ ({ desired := ⟨"example.com.", [⟨"www", "A", 300, "1.2.3.4", none⟩], none⟩,
         current := ⟨"example.com.", [], none⟩,
         diff := diff_zones ⟨"example.com.", [⟨"www", "A", 300, "1.2.3.4", none⟩], none⟩
           (filter_records ⟨"example.com.", [], none⟩ ["*.ignored.example.com."]),
         soa := { primary_ns := "ns.example.com.", admin_email := "hostmaster.example.com.",
                  serial := 5, refresh := 3600, retry := 600, expire := 604800,
                  minimum := 86400 },
         render := ⟨"", ""⟩ } : PlanResult).desired =
        ⟨"example.com.", [⟨"www", "A", 300, "1.2.3.4", none⟩], none⟩
    ∧ ({ desired := ⟨"example.com.", [⟨"www", "A", 300, "1.2.3.4", none⟩], none⟩,
         current := ⟨"example.com.", [], none⟩,
         diff := diff_zones ⟨"example.com.", [⟨"www", "A", 300, "1.2.3.4", none⟩], none⟩
           (filter_records ⟨"example.com.", [], none⟩ ["*.ignored.example.com."]),
         soa := { primary_ns := "ns.example.com.", admin_email := "hostmaster.example.com.",
                  serial := 5, refresh := 3600, retry := 600, expire := 604800,
                  minimum := 86400 },
         render := ⟨"", ""⟩ } : PlanResult).current = ⟨"example.com.", [], none⟩ :=
  filter_records_raw_name_amended
    ⟨"example.com.", [⟨"www", "A", 300, "1.2.3.4", none⟩], none⟩ ["www."]
    { serial_strategy := "epoch" } ⟨5, 2025101200⟩ (fun _ _ => ⟨"", ""⟩)
    { state := ⟨"example.com.", [⟨"www", "A", 300, "1.2.3.4", none⟩], none⟩,
      soa_overrides := none, ignore := ["*.ignored.example.com."] }
    ⟨"example.com.", [], none⟩ _ rfl

/-- A mapped list of deletes is untouched by `filter isDelete`. -/
theorem filter_isDelete_map_delete {α : Type} (l : List α) (f g h : α → String) :
    (l.map (fun x => DnsOp.delete (f x) (g x) (h x))).filter DnsOp.isDelete =
      l.map (fun x => DnsOp.delete (f x) (g x) (h x)) := by
  induction l with
  | nil => rfl
  | cons x t ih => simp [List.filter_cons, DnsOp.isDelete, ih]

/-- A mapped list of adds is erased by `filter isDelete`. -/
theorem filter_isDelete_map_add {α : Type} (l : List α) (f : α → String) (t : α → Int)
    (g h : α → String) :
    (l.map (fun x => DnsOp.add (f x) (t x) (g x) (h x))).filter DnsOp.isDelete = [] := by
  induction l with
  | nil => rfl
  | cons x tl ih => simp [List.filter_cons, DnsOp.isDelete, ih]

/-- A mapped list of adds is untouched by `filter isAdd`. -/
theorem filter_isAdd_map_add {α : Type} (l : List α) (f : α → String) (t : α → Int)
    (g h : α → String) :
    (l.map (fun x => DnsOp.add (f x) (t x) (g x) (h x))).filter DnsOp.isAdd =
      l.map (fun x => DnsOp.add (f x) (t x) (g x) (h x)) := by
  induction l with
  | nil => rfl
  | cons x tl ih => simp [List.filter_cons, DnsOp.isAdd, ih]

/-- A mapped list of deletes is erased by `filter isAdd`. -/
theorem filter_isAdd_map_delete {α : Type} (l : List α) (f g h : α → String) :
    (l.map (fun x => DnsOp.delete (f x) (g x) (h x))).filter DnsOp.isAdd = [] := by
  induction l with
  | nil => rfl
  | cons x t ih => simp [List.filter_cons, DnsOp.isAdd, ih]

/-- C5: in the dynamic apply strategy every delete precedes every add (the
batch is its deletes followed by its adds); the deletes are exactly those
for removed records then for the old halves of TTL changes, and the adds
are exactly those for added records then for the new halves of TTL changes
(so a TTL change is a delete of the old record's value followed by an add
with the new TTL, never an in-place rewrite); and for a diff that is
exactly one TTL change of `(api, A, "9.9.9.9")` from 300 to 600, the batch
is exactly `[delete(api, A, 9.9.9.9), add(api, 600, A, 9.9.9.9)]`. -/
theorem dynamic_update_ops_delete_before_add (diff : ZoneDiff) :
    dynamic_update_ops diff =
        (dynamic_update_ops diff).filter DnsOp.isDelete
          ++ (dynamic_update_ops diff).filter DnsOp.isAdd
    ∧ (dynamic_update_ops diff).filter DnsOp.isDelete =
        diff.removed.map (fun record => DnsOp.delete record.name record.type record.value)
          ++ diff.ttl_changed.map (fun p => DnsOp.delete p.1.name p.1.type p.1.value)
    ∧ (dynamic_update_ops diff).filter DnsOp.isAdd =
        diff.added.map (fun record => DnsOp.add record.name record.ttl record.type record.value)
          ++ diff.ttl_changed.map (fun p => DnsOp.add p.2.name p.2.ttl p.2.type p.2.value)
    ∧ dynamic_update_ops
        { added := [], removed := [],
          ttl_changed := [(⟨"api", "A", 300, "9.9.9.9", none⟩, ⟨"api", "A", 600, "9.9.9.9", none⟩)] } =
        [DnsOp.delete "api" "A" "9.9.9.9", DnsOp.add "api" 600 "A" "9.9.9.9"] := by
  have hdel : (dynamic_update_ops diff).filter DnsOp.isDelete =
      diff.removed.map (fun record => DnsOp.delete record.name record.type record.value)
        ++ diff.ttl_changed.map (fun p => DnsOp.delete p.1.name p.1.type p.1.value) := by
    unfold dynamic_update_ops
    rw [List.filter_append, List.filter_append, List.filter_append]
    rw [filter_isDelete_map_delete, filter_isDelete_map_delete, filter_isDelete_map_add,
      filter_isDelete_map_add]
    simp
  have hadd : (dynamic_update_ops diff).filter DnsOp.isAdd =
      diff.added.map (fun record => DnsOp.add record.name record.ttl record.type record.value)
        ++ diff.ttl_changed.map (fun p => DnsOp.add p.2.name p.2.ttl p.2.type p.2.value) := by
    unfold dynamic_update_ops
    rw [List.filter_append, List.filter_append, List.filter_append]
    rw [filter_isAdd_map_delete, filter_isAdd_map_delete, filter_isAdd_map_add,
      filter_isAdd_map_add]
    simp
  refine ⟨?_, hdel, hadd, rfl⟩
  rw [hdel, hadd]
  unfold dynamic_update_ops
  simp

/-- C1: when the plan's diff has no changes, `apply` returns immediately
with no side effects and no error — no prompt, no zone-file write, no
validation, no reload or dynamic update, no auto-commit — for either value
of `assume_yes` and any environment. -/
theorem apply_trace_no_changes_noop (config : AppConfig) (plan_result : PlanResult)
    (assume_yes : Bool) (env : ApplyEnv)
    (h : plan_result.diff.has_changes = false) :
    apply_trace config plan_result assume_yes env = ([], none) := by
  unfold apply_trace
  rw [h]
  simp

/-- Witness for `apply_trace_no_changes_noop` on a concrete empty diff. -/
theorem apply_trace_no_changes_noop_witness :
    ZoneDiff.has_changes ⟨[], [], []⟩ = false
    ∧ apply_trace {}
        ⟨⟨"example.com.", [], none⟩, ⟨"example.com.", [], none⟩, ⟨[], [], []⟩,
          ⟨"ns.example.com.", "hostmaster.example.com.", 1, 3600, 600, 604800, 86400⟩,
          ⟨"", ""⟩⟩
        true ⟨"y", true, true, 0, true, true⟩ = ([], none)
    ∧ apply_trace {}
        ⟨⟨"example.com.", [], none⟩, ⟨"example.com.", [], none⟩, ⟨[], [], []⟩,
          ⟨"ns.example.com.", "hostmaster.example.com.", 1, 3600, 600, 604800, 86400⟩,
          ⟨"", ""⟩⟩
        false ⟨"y", true, true, 0, true, true⟩ = ([], none) :=
  ⟨rfl, apply_trace_no_changes_noop {} _ true ⟨"y", true, true, 0, true, true⟩ rfl,
    apply_trace_no_changes_noop {} _ false ⟨"y", true, true, 0, true, true⟩ rfl⟩

/-- `charsLt` never holds in both directions. -/
theorem charsLt_asymm : ∀ {a b : List Char},
    charsLt a b = true → charsLt b a = true → False := by
  intro a
  induction a with
  | nil =>
    intro b h1 h2
    cases b with
    | nil => simp [charsLt] at h1
    | cons y ys => simp [charsLt] at h2
  | cons x xs ih =>
    intro b h1 h2
    cases b with
    | nil => simp [charsLt] at h1
    | cons y ys =>
      simp only [charsLt, Bool.or_eq_true, Bool.and_eq_true, decide_eq_true_eq] at h1 h2
      rcases h1 with h1 | ⟨h1e, h1r⟩
      · rcases h2 with h2 | ⟨h2e, h2r⟩
        · exact absurd h2 (lt_asymm h1)
        · rw [h2e] at h1
          exact absurd h1 (lt_irrefl _)
      · rcases h2 with h2 | ⟨h2e, h2r⟩
        · rw [h1e] at h2
          exact absurd h2 (lt_irrefl _)
        · exact ih h1r h2r

/-- `charsLt` is transitive. -/
theorem charsLt_trans : ∀ {a b c : List Char},
    charsLt a b = true → charsLt b c = true → charsLt a c = true := by
  intro a
  induction a with
  | nil =>
    intro b c h1 h2
    cases b with
    | nil => simp [charsLt] at h1
    | cons y ys =>
      cases c with
      | nil => simp [charsLt] at h2
      | cons z zs => simp [charsLt]
  | cons x xs ih =>
    intro b c h1 h2
    cases b with
    | nil => simp [charsLt] at h1
    | cons y ys =>
      cases c with
      | nil => simp [charsLt] at h2
      | cons z zs =>
        simp only [charsLt, Bool.or_eq_true, Bool.and_eq_true, decide_eq_true_eq] at h1 h2 ⊢
        rcases h1 with h1 | ⟨h1e, h1r⟩
        · rcases h2 with h2 | ⟨h2e, h2r⟩
          · exact Or.inl (lt_trans h1 h2)
          · exact Or.inl (h2e ▸ h1)
        · rcases h2 with h2 | ⟨h2e, h2r⟩
          · exact Or.inl (h1e ▸ h2)
          · exact Or.inr ⟨h1e.trans h2e, ih h1r h2r⟩

/-- Two lists not related by `charsLt` in either direction are equal. -/
theorem charsLt_connex : ∀ {a b : List Char},
    charsLt a b = false → charsLt b a = false → a = b := by
  intro a
  induction a with
  | nil =>
    intro b h1 h2
    cases b with
    | nil => rfl
    | cons y ys => simp [charsLt] at h1
  | cons x xs ih =>
    intro b h1 h2
    cases b with
    | nil => simp [charsLt] at h2
    | cons y ys =>
      simp only [charsLt, Bool.or_eq_false_iff, Bool.and_eq_false_iff,
        decide_eq_false_iff_not] at h1 h2
      rcases lt_trichotomy x y with hlt | heq | hgt
      · exact absurd hlt h1.1
      · subst heq
        rcases h1.2 with h1r | h1r
        · exact absurd rfl h1r
        · rcases h2.2 with h2r | h2r
          · exact absurd rfl h2r
          · rw [ih h1r h2r]
      · exact absurd hgt h2.1

/-- `charsLt` is irreflexive. -/
theorem charsLt_irrefl : ∀ (a : List Char), charsLt a a = false := by
  intro a
  induction a with
  | nil => rfl
  | cons x xs ih => simp [charsLt, ih, lt_irrefl]

/-- `pyStrLt` is irreflexive. -/
theorem pyStrLt_irrefl (a : String) : pyStrLt a a = false := by
  simp [pyStrLt, charsLt_irrefl]

/-- Two strings not related by `pyStrLt` in either direction are equal. -/
theorem pyStrLt_connex {a b : String} (h1 : pyStrLt a b = false)
    (h2 : pyStrLt b a = false) : a = b := by
  cases a with
  | mk da =>
    cases b with
    | mk db =>
      simp only [pyStrLt] at h1 h2
      exact congrArg String.mk (charsLt_connex h1 h2)

/-- `keyLe` is total. -/
theorem keyLe_total (a b : DiffKey) : keyLe a b = true ∨ keyLe b a = true := by
  by_cases h1 : pyStrLt a.1 b.1 = true
  · exact Or.inl (by simp [keyLe, keyLt, h1])
  · by_cases h1' : pyStrLt b.1 a.1 = true
    · exact Or.inr (by simp [keyLe, keyLt, h1'])
    · have he1 : a.1 = b.1 :=
        pyStrLt_connex (by simpa using h1) (by simpa using h1')
      by_cases h2 : pyStrLt a.2 b.2 = true
      · exact Or.inl (by simp [keyLe, keyLt, he1, h2])
      · by_cases h2' : pyStrLt b.2 a.2 = true
        · exact Or.inr (by simp [keyLe, keyLt, he1, h2'])
        · have he2 : a.2 = b.2 :=
            pyStrLt_connex (by simpa using h2) (by simpa using h2')
          exact Or.inl (by simp [keyLe, Prod.ext he1 he2])

/-- `keyLe` is transitive. -/
theorem keyLe_trans {a b c : DiffKey} (h1 : keyLe a b = true) (h2 : keyLe b c = true) :
    keyLe a c = true := by
  simp only [keyLe, keyLt, Bool.or_eq_true, Bool.and_eq_true, decide_eq_true_eq] at h1 h2 ⊢
  rcases h1 with h1 | h1
  · rcases h2 with h2 | h2
    · rcases h1 with h1 | ⟨h1e, h1r⟩ <;> rcases h2 with h2 | ⟨h2e, h2r⟩
      · exact Or.inl (Or.inl (charsLt_trans h1 h2))
      · exact Or.inl (Or.inl (h2e ▸ h1))
      · exact Or.inl (Or.inl (h1e ▸ h2))
      · exact Or.inl (Or.inr ⟨h1e.trans h2e, charsLt_trans h1r h2r⟩)
    · exact Or.inl (h2 ▸ h1)
  · exact h1 ▸ h2

/-- `keyLe` is antisymmetric. -/
theorem keyLe_antisymm {a b : DiffKey} (h1 : keyLe a b = true) (h2 : keyLe b a = true) :
    a = b := by
  by_cases he : a = b
  · exact he
  · exfalso
    simp only [keyLe, keyLt, Bool.or_eq_true, Bool.and_eq_true, decide_eq_true_eq] at h1 h2
    rcases h1 with h1 | h1
    · rcases h2 with h2 | h2
      · rcases h1 with h1 | ⟨h1e, h1r⟩ <;> rcases h2 with h2 | ⟨h2e, h2r⟩
        · exact charsLt_asymm h1 h2
        · rw [h2e, pyStrLt_irrefl] at h1
          exact Bool.false_ne_true h1
        · rw [h1e, pyStrLt_irrefl] at h2
          exact Bool.false_ne_true h2
        · exact charsLt_asymm h1r h2r
      · exact he h2.symm
    · exact he h1

/-- Sorting the deduplicated key union is insensitive to the order of the
two maps: both sides sort permutations of each other, and a sorted list
under the total antisymmetric key order is unique. -/
theorem sortedDiffKeys_comm (dmap cmap : OuterMap) :
    sortedDiffKeys dmap cmap = sortedDiffKeys cmap dmap := by
  haveI hTot : IsTotal DiffKey (fun a b => keyLe a b = true) := ⟨keyLe_total⟩
  haveI hTrans : IsTrans DiffKey (fun a b => keyLe a b = true) :=
    ⟨fun _ _ _ => keyLe_trans⟩
  haveI hAnti : IsAntisymm DiffKey (fun a b => keyLe a b = true) :=
    ⟨fun _ _ => keyLe_antisymm⟩
  unfold sortedDiffKeys
  refine List.eq_of_perm_of_sorted ?_
    (List.sorted_insertionSort _ _) (List.sorted_insertionSort _ _)
  exact (List.perm_insertionSort _ _).trans
    ((List.perm_append_comm).dedup.trans (List.perm_insertionSort _ _).symm)

/-- C6: for zone states with identical origin (in fact for all zone
states), `diff_zones A B`'s additions are exactly `diff_zones B A`'s
removals as lists, and vice versa: both walk the same sorted key union and
collect, per key, the records of one map whose canonical value is absent
from the other. -/
theorem diff_zones_symmetric (A B : ZoneState) (_origin_eq : A.origin = B.origin) :
    (diff_zones A B).added = (diff_zones B A).removed
    ∧ (diff_zones A B).removed = (diff_zones B A).added := by
  unfold diff_zones
  simp only
  rw [sortedDiffKeys_comm (build_value_map B) (build_value_map A)]
  exact ⟨rfl, rfl⟩

/-- Witness for `diff_zones_symmetric` on two concrete single-record states
with the same origin. -/
theorem diff_zones_symmetric_witness :
    (⟨"example.com.", [⟨"www", "A", 300, "1.2.3.4", none⟩], none⟩ : ZoneState).origin =
        (⟨"example.com.", [⟨"mail", "A", 300, "5.6.7.8", none⟩], none⟩ : ZoneState).origin
    ∧ ((diff_zones ⟨"example.com.", [⟨"www", "A", 300, "1.2.3.4", none⟩], none⟩
          ⟨"example.com.", [⟨"mail", "A", 300, "5.6.7.8", none⟩], none⟩).added =
        (diff_zones ⟨"example.com.", [⟨"mail", "A", 300, "5.6.7.8", none⟩], none⟩
          ⟨"example.com.", [⟨"www", "A", 300, "1.2.3.4", none⟩], none⟩).removed
      ∧ (diff_zones ⟨"example.com.", [⟨"www", "A", 300, "1.2.3.4", none⟩], none⟩
          ⟨"example.com.", [⟨"mail", "A", 300, "5.6.7.8", none⟩], none⟩).removed =
        (diff_zones ⟨"example.com.", [⟨"mail", "A", 300, "5.6.7.8", none⟩], none⟩
          ⟨"example.com.", [⟨"www", "A", 300, "1.2.3.4", none⟩], none⟩).added) :=
  ⟨rfl, diff_zones_symmetric _ _ rfl⟩

/-- Membership after a dictionary insert: either an old entry or the new
binding. -/
theorem alInsert_mem {α β : Type} [DecidableEq α] {l : List (α × β)} {k : α} {v : β}
    {q : α × β} (hq : q ∈ alInsert l k v) : q ∈ l ∨ q = (k, v) := by
  induction l with
  | nil =>
    rw [alInsert] at hq
    exact Or.inr (List.mem_singleton.mp hq)
  | cons hd tl ih =>
    obtain ⟨k', v'⟩ := hd
    rw [alInsert] at hq
    split at hq
    · rename_i heq
      rcases List.mem_cons.mp hq with h1 | h2
      · subst heq
        exact Or.inr h1
      · exact Or.inl (List.mem_cons_of_mem _ h2)
    · rcases List.mem_cons.mp hq with h1 | h2
      · exact Or.inl (h1 ▸ List.mem_cons_self _ _)
      · rcases ih h2 with h3 | h3
        · exact Or.inl (List.mem_cons_of_mem _ h3)
        · exact Or.inr h3

/-- A successful dictionary lookup is a membership. -/
theorem alGet_mem {α β : Type} [DecidableEq α] {l : List (α × β)} {k : α} {v : β}
    (h : alGet l k = some v) : (k, v) ∈ l := by
  induction l with
  | nil => simp [alGet] at h
  | cons hd tl ih =>
    obtain ⟨k', v'⟩ := hd
    rw [alGet] at h
    split at h
    · rename_i heq
      simp only [Option.some.injEq] at h
      subst heq
      subst h
      exact List.mem_cons_self _ _
    · exact List.mem_cons_of_mem _ (ih h)

/-- `outerInsert` of a non-SOA record preserves the all-inner-records-are-
non-SOA invariant. -/
theorem outerInsert_no_soa {m : OuterMap} {k : DiffKey} {cv : String} {r : Record}
    (hm : ∀ e ∈ m, ∀ q ∈ e.2, q.2.canonical_type ≠ "SOA")
    (hr : r.canonical_type ≠ "SOA") :
    ∀ e ∈ outerInsert m k cv r, ∀ q ∈ e.2, q.2.canonical_type ≠ "SOA" := by
  induction m with
  | nil =>
    intro e he q hq
    rw [outerInsert] at he
    rw [List.mem_singleton.mp he] at hq
    rcases alInsert_mem hq with h | h
    · simp at h
    · rw [h]
      exact hr
  | cons hd tl ih =>
    obtain ⟨k', inner⟩ := hd
    intro e he q hq
    rw [outerInsert] at he
    split at he
    · rcases List.mem_cons.mp he with he1 | he2
      · rw [he1] at hq
        rcases alInsert_mem hq with h | h
        · exact hm (k', inner) (List.mem_cons_self _ _) q h
        · rw [h]
          exact hr
      · exact hm e (List.mem_cons_of_mem _ he2) q hq
    · rcases List.mem_cons.mp he with he1 | he2
      · rw [he1] at hq
        exact hm (k', inner) (List.mem_cons_self _ _) q hq
      · exact ih (fun e' he' => hm e' (List.mem_cons_of_mem _ he')) e he2 q hq

/-- Every record stored in `build_value_map` has non-SOA canonical type:
the build loop skips SOA records. -/
theorem build_value_map_no_soa (s : ZoneState) :
    ∀ e ∈ build_value_map s, ∀ q ∈ e.2, q.2.canonical_type ≠ "SOA" := by
  suffices haux : ∀ (l : List Record) (m : OuterMap),
      (∀ e ∈ m, ∀ q ∈ e.2, q.2.canonical_type ≠ "SOA") →
      ∀ e ∈ l.foldl
        (fun m r =>
          if r.canonical_type = "SOA" then m
          else outerInsert m r.diffKey r.canonical_value r) m,
        ∀ q ∈ e.2, q.2.canonical_type ≠ "SOA" by
    exact haux s.records [] (by simp)
  intro l
  induction l with
  | nil => intro m hm; simpa using hm
  | cons r t ih =>
    intro m hm
    rw [List.foldl_cons]
    apply ih
    by_cases h : r.canonical_type = "SOA"
    · rw [if_pos h]
      exact hm
    · rw [if_neg h]
      exact outerInsert_no_soa hm h

/-- Records collected by `onlyIn xm ym` come from `xm`'s inner maps. -/
theorem onlyIn_no_soa {xm : OuterMap} (ym : OuterMap)
    (hx : ∀ e ∈ xm, ∀ q ∈ e.2, q.2.canonical_type ≠ "SOA") (k : DiffKey) :
    ∀ r ∈ onlyIn xm ym k, r.canonical_type ≠ "SOA" := by
  intro r hr
  unfold onlyIn at hr
  simp only [List.mem_map, List.mem_filter] at hr
  obtain ⟨p, ⟨hp, -⟩, hpr⟩ := hr
  rcases hget : alGet xm k with - | inner
  · rw [hget] at hp
    simp at hp
  · rw [hget] at hp
    have := hx (k, inner) (alGet_mem hget) p hp
    rw [hpr] at this
    exact this

/-- Pairs collected by `ttlChangedAt` have both halves from the two maps'
inner maps. -/
theorem ttlChangedAt_no_soa {dm cm : OuterMap}
    (hd : ∀ e ∈ dm, ∀ q ∈ e.2, q.2.canonical_type ≠ "SOA")
    (hc : ∀ e ∈ cm, ∀ q ∈ e.2, q.2.canonical_type ≠ "SOA") (k : DiffKey) :
    ∀ p ∈ ttlChangedAt dm cm k,
      p.1.canonical_type ≠ "SOA" ∧ p.2.canonical_type ≠ "SOA" := by
  intro p hp
  unfold ttlChangedAt at hp
  simp only [List.mem_filterMap] at hp
  obtain ⟨q, hq, heq⟩ := hp
  rcases hgetd : alGet dm k with - | dinner
  · rw [hgetd] at hq
    simp at hq
  · rw [hgetd] at hq
    have hq2 : q.2.canonical_type ≠ "SOA" := hd (k, dinner) (alGet_mem hgetd) q hq
    rcases hgetcm : alGet cm k with - | cinner
    · rw [hgetcm] at heq
      simp [alGet] at heq
    · rw [hgetcm] at heq
      simp only [Option.getD_some] at heq
      rcases hgetc : alGet cinner q.1 with - | cr
      · rw [hgetc] at heq
        exact Option.noConfusion heq
      · rw [hgetc] at heq
        split at heq
        · rename_i x cr' hsome
          have hcc : cr' = cr := (Option.some.inj hsome).symm
          split at heq
          · simp only [Option.some.injEq] at heq
            have hcr : cr.canonical_type ≠ "SOA" :=
              hc (k, cinner) (alGet_mem hgetcm) (q.1, cr) (alGet_mem hgetc)
            rw [← heq, hcc]
            exact ⟨hcr, hq2⟩
          · exact Option.noConfusion heq
        · exact Option.noConfusion heq

/-- C7: no SOA record ever appears in `added`, `removed`, or either half of
`ttl_changed` — `_build_value_map` skips SOA records, and the diff only
draws from the two value maps. -/
theorem diff_zones_excludes_soa (desired current : ZoneState) :
    (∀ r ∈ (diff_zones desired current).added, r.canonical_type ≠ "SOA")
    ∧ (∀ r ∈ (diff_zones desired current).removed, r.canonical_type ≠ "SOA")
    ∧ (∀ p ∈ (diff_zones desired current).ttl_changed,
        p.1.canonical_type ≠ "SOA" ∧ p.2.canonical_type ≠ "SOA") := by
  have hd := build_value_map_no_soa desired
  have hc := build_value_map_no_soa current
  unfold diff_zones
  simp only
  refine ⟨?_, ?_, ?_⟩
  · intro r hr
    rw [List.mem_flatMap] at hr
    obtain ⟨k, -, hk⟩ := hr
    exact onlyIn_no_soa _ hd k r hk
  · intro r hr
    rw [List.mem_flatMap] at hr
    obtain ⟨k, -, hk⟩ := hr
    exact onlyIn_no_soa _ hc k r hk
  · intro p hp
    rw [List.mem_flatMap] at hp
    obtain ⟨k, -, hk⟩ := hp
    exact ttlChangedAt_no_soa hd hc k p hk

/-- Witness for `diff_zones_excludes_soa`: a desired state containing an
SOA record and one A record diffs against an empty current state into
`added = [the A record]` — and that record is indeed not an SOA. -/
theorem diff_zones_excludes_soa_witness :
    (⟨"www", "A", 300, "1.2.3.4", none⟩ : Record).canonical_type ≠ "SOA" :=
  (diff_zones_excludes_soa
      ⟨"example.com.",
        [⟨"example.com.", "SOA", 3600, "ns. mail. 1 2 3 4 5", none⟩,
         ⟨"www", "A", 300, "1.2.3.4", none⟩], none⟩
      ⟨"example.com.", [], none⟩).1
    ⟨"www", "A", 300, "1.2.3.4", none⟩ (by decide)

end Bind9Ctl

